import Mathlib

/-!
Verification development for the graal-utils repository.

The CLI generator (`graal_utils/parser.py`) and the execution timer
(`graal_utils/timer.py`) are shallowly embedded below.  Python strings are
modelled as `List Char`, Python ints as `Int`, Python floats as `ℚ`
(all durations and arithmetic in the claims are exact decimals), and
fallible parsing as `Except String _`.  ANSI colours are modelled in the
colorama-absent fallback, where every colour code is the empty string.
-/

/-- Primitive Python values a parameter default can take: bool, int, float
(modelled as a rational) or str. -/
inductive Prim where
  | bool (b : Bool)
  | int (n : Int)
  | float (q : ℚ)
  | str (s : List Char)
deriving DecidableEq, Repr

/-- A parameter default value: a primitive, or a homogeneous list of
primitives (the shapes `func_to_cmd` type-infers from). -/
inductive PyVal where
  | prim (p : Prim)
  | list (elems : List Prim)
deriving DecidableEq, Repr

deriving instance DecidableEq for Except

/-- Numeric value of a decimal digit character. -/
def digitVal (c : Char) : Nat := c.toNat - '0'.toNat

/-- Reads a nonempty all-digit character list as a natural number. -/
def decimalDigits? (l : List Char) : Option Nat :=
  if l.isEmpty then none
  else if l.all Char.isDigit then
    some (l.foldl (fun a c => 10 * a + digitVal c) 0)
  else none

/-- Models Python `int(str)` on optionally signed decimal literals:
`int('7') = 7`, `int('-3') = -3`, anything else raises `ValueError`. -/
def int_parse (l : List Char) : Except String Int :=
  match l with
  | '-' :: rest =>
    match decimalDigits? rest with
    | some n => Except.ok (-(n : Int))
    | none => Except.error "invalid literal for int()"
  | '+' :: rest =>
    match decimalDigits? rest with
    | some n => Except.ok (n : Int)
    | none => Except.error "invalid literal for int()"
  | _ =>
    match decimalDigits? l with
    | some n => Except.ok (n : Int)
    | none => Except.error "invalid literal for int()"

/-- Models Python `float(str)` on optionally signed decimal literals with an
optional fractional part (`'1.5'`, `'.5'`, `'2.'`, `'3'`). -/
def float_parse (l : List Char) : Except String ℚ :=
  let signed : Bool := l.headD ' ' = '-'
  let body := if l.headD ' ' = '-' ∨ l.headD ' ' = '+' then l.tail else l
  let parts := if body.contains '.' then
      (body.takeWhile (fun c => c ≠ '.'), (body.dropWhile (fun c => c ≠ '.')).tail)
    else (body, [])
  let ip := parts.1
  let fp := parts.2
  if ip.isEmpty ∧ fp.isEmpty then Except.error "could not convert string to float"
  else if ip.all Char.isDigit ∧ fp.all Char.isDigit ∧ ¬ (body.dropWhile (fun c => c ≠ '.')).tail.contains '.' then
    let ipv : ℚ := (ip.foldl (fun a c => 10 * a + digitVal c) 0 : Nat)
    let fpv : ℚ := (fp.foldl (fun a c => 10 * a + digitVal c) 0 : Nat)
    let v := ipv + fpv / ((10 : ℚ) ^ fp.length)
    Except.ok (if signed then -v else v)
  else Except.error "could not convert string to float"

/-- Lowercases a string character by character; models Python `str.lower()`
on the ASCII tokens `bool_parse` compares against. -/
def toLowerStr (l : List Char) : List Char := l.map Char.toLower

/-- Tokens `bool_parse` accepts as true. -/
def truthyTokens : List (List Char) := ["true", "t", "yes", "y", "1"].map String.data

/-- Tokens `bool_parse` accepts as false. -/
def falsyTokens : List (List Char) := ["false", "f", "no", "n", "0"].map String.data

/-- Embeds `bool_parse` from `graal_utils/parser.py`: lowercase the argument,
compare against the truthy and falsy token sets, raise
`argparse.ArgumentTypeError` otherwise. -/
def bool_parse (arg : List Char) : Except String Bool :=
  if toLowerStr arg ∈ truthyTokens then Except.ok true
  else if toLowerStr arg ∈ falsyTokens then Except.ok false
  else Except.error "Boolean value expected."

/-- Models `arg.replace('[', '').replace(']', '')`: replacing every occurrence
of a single character by the empty string removes exactly those characters. -/
def removeBrackets (l : List Char) : List Char :=
  l.filter (fun c => !(c = '[' ∨ c = ']' : Bool))

/-- Models Python `str.split(sep)` for a single-character separator:
`''.split(',') = ['']`, `'1,2'.split(',') = ['1', '2']`. -/
def splitOnChar (sep : Char) : List Char → List (List Char)
  | [] => [[]]
  | c :: rest =>
    let r := splitOnChar sep rest
    if c = sep then [] :: r
    else
      match r with
      | [] => [[c]]
      | p :: ps => (c :: p) :: ps

/-- Applies a fallible coercion to every element in order, propagating the
first failure — the effect of a Python list comprehension over a coercer
that may raise. -/
def mapExcept {α β : Type} (f : α → Except String β) : List α → Except String (List β)
  | [] => Except.ok []
  | x :: xs =>
    match f x with
    | Except.error e => Except.error e
    | Except.ok y =>
      match mapExcept f xs with
      | Except.error e => Except.error e
      | Except.ok ys => Except.ok (y :: ys)

/-- Embeds `list_parse` from `graal_utils/parser.py`: drop every bracket
character, split on commas, coerce each piece with the element coercer. -/
def list_parse (list_type : List Char → Except String Prim) (arg : List Char) :
    Except String (List Prim) :=
  mapExcept list_type (splitOnChar ',' (removeBrackets arg))

/-- Element coercer chosen from the runtime type of the default list's first
element: `type(value[0])` applied to each piece.  Python `bool(str)` is plain
truthiness (any nonempty string is `True`). -/
def elemCoercerFor (p : Prim) : List Char → Except String Prim :=
  match p with
  | .bool _ => fun s => Except.ok (.bool (!s.isEmpty))
  | .int _ => fun s => (int_parse s).map Prim.int
  | .float _ => fun s => (float_parse s).map Prim.float
  | .str _ => fun s => Except.ok (.str s)

/-- Embeds the `value_type` selection in `func_to_cmd`: `bool_parse` for bool
defaults, `list_parse` (with the first element's type, or str when the default
list is empty) for list defaults, and the type's own constructor otherwise. -/
def value_type (v : PyVal) : List Char → Except String PyVal :=
  match v with
  | .prim (.bool _) => fun s => (bool_parse s).map (fun b => .prim (.bool b))
  | .prim (.int _) => fun s => (int_parse s).map (fun n => .prim (.int n))
  | .prim (.float _) => fun s => (float_parse s).map (fun q => .prim (.float q))
  | .prim (.str _) => fun s => Except.ok (.prim (.str s))
  | .list es => fun s => (list_parse (elemCoercerFor (es.headD (.str []))) s).map PyVal.list

/-- Models `dict.update`: replace the value of an existing key in place,
append keys not yet present (Python dicts preserve insertion order). -/
def dictUpdate (base upd : List (String × PyVal)) : List (String × PyVal) :=
  upd.foldl
    (fun acc kv =>
      if acc.any (fun e => e.1 = kv.1) then
        acc.map (fun e => if e.1 = kv.1 then kv else e)
      else acc ++ [kv])
    base

/-- Looks up the value of flag `--k` on the command line; argparse keeps the
last occurrence when a flag is repeated. -/
def lookupFlag (argv : List (String × List Char)) (k : String) : Option (List Char) :=
  (argv.reverse.find? (fun a => a.1 = k)).map (fun a => a.2)

/-- Embeds the keyword-merging core of `func_to_cmd` from
`graal_utils/parser.py`: start from the signature defaults, apply the caller's
in-code kwargs (`signature_kwargs.update(kwargs)`), register one flag per
merged entry with that entry's value as the argparse default, then let
`parse_args` replace the default of every key supplied on the command line
with the `value_type`-coerced flag string.  A flag for an unregistered key is
an argparse usage error. -/
def func_to_cmd_kwargs (sig kwargs : List (String × PyVal))
    (argv : List (String × List Char)) : Except String (List (String × PyVal)) :=
  let merged := dictUpdate sig kwargs
  if argv.all (fun a => merged.any (fun kv => kv.1 = a.1)) then
    mapExcept (fun kv =>
      match lookupFlag argv kv.1 with
      | some s => (value_type kv.2 s).map (fun pv => (kv.1, pv))
      | none => Except.ok kv) merged
  else Except.error "unrecognized arguments"

/-- Embeds the entry point generated by `func_to_cmd`: parse the keyword set,
then invoke the original function on it and return its result. -/
def func_to_cmd {R : Type} (func : List (String × PyVal) → R)
    (sig kwargs : List (String × PyVal)) (argv : List (String × List Char)) :
    Except String R :=
  (func_to_cmd_kwargs sig kwargs argv).map func

/-- Written from the specification's words, for the refinement claim:
"calling the original function directly with its declared defaults". -/
def callWithDefaults {R : Type} (func : List (String × PyVal) → R)
    (sig : List (String × PyVal)) : R :=
  func sig

/-!  Execution timer (`graal_utils/timer.py`). -/

/-- Decimal digit characters of a natural number. -/
def natChars (n : Nat) : List Char := Nat.toDigits 10 n

/-- Models Python `str` / `'%d'` on an integer. -/
def intChars (i : Int) : List Char :=
  if i < 0 then '-' :: natChars i.natAbs else natChars i.natAbs

/-- Models Python `int()` on a float: truncation toward zero. -/
def truncInt (x : ℚ) : Int := if x < 0 then -(⌊-x⌋) else ⌊x⌋

/-- Rounds to the nearest integer, ties to even — the rounding `'%.2f'`
performs on the scaled value. -/
def roundHalfEven (x : ℚ) : Int :=
  if Int.fract x < 1 / 2 then ⌊x⌋
  else if 1 / 2 < Int.fract x then ⌊x⌋ + 1
  else if ⌊x⌋ % 2 = 0 then ⌊x⌋ else ⌊x⌋ + 1

/-- Models Python `f"{x:.2f}"` for nonnegative `x`: two digits after the
decimal point, zero-padded. -/
def twoDecChars (x : ℚ) : List Char :=
  let n := (roundHalfEven (x * 100)).toNat
  natChars (n / 100) ++ '.' ::
    (if n % 100 < 10 then '0' :: natChars (n % 100) else natChars (n % 100))

/-- Unit-name lookup of `Timer.format_long_time` (the `periods` dict; it is
only ever consulted at the keys `d`, `h`, `m`, `s`). -/
def periodName (period : Char) : List Char :=
  if period = 'd' then "day".data
  else if period = 'h' then "hour".data
  else if period = 'm' then "minute".data
  else "second".data

/-- Embeds `Timer.format_long_time`: full unit word, pluralized with a
trailing `s` exactly when the magnitude exceeds 1; seconds get two decimals,
the other units are printed as integers. -/
def format_long_time (seconds : ℚ) (period : Char) : List Char :=
  let format_period_string := periodName period ++ (if 1 < seconds then ['s'] else [])
  if period ≠ 's' then intChars (truncInt seconds) ++ ' ' :: format_period_string
  else twoDecChars seconds ++ ' ' :: format_period_string

/-- Embeds `Timer.format_short_time`: magnitude immediately followed by the
single-letter unit; seconds get two decimals. -/
def format_short_time (seconds : ℚ) (period : Char) : List Char :=
  if period ≠ 's' then intChars (truncInt seconds) ++ [period]
  else twoDecChars seconds ++ [period]

/-- Dispatch on `elapsed_time_format`: `format_long_time` when it equals
`'long'`, `format_short_time` otherwise. -/
def format_time (fmt : String) (seconds : ℚ) (period : Char) : List Char :=
  if fmt = "long" then format_long_time seconds period
  else format_short_time seconds period

/-- One pass of the loop in `Timer.format_elapsed_time`: when the remaining
seconds reach the unit's span, `divmod` splits off that unit's magnitude and
the component is appended. -/
def elapsedStep (period_seconds : ℚ) (period_name : Char) (st : ℚ × List (Char × ℚ)) :
    ℚ × List (Char × ℚ) :=
  if st.1 ≥ period_seconds then
    let v : ℚ := (⌊st.1 / period_seconds⌋ : Int)
    (st.1 - period_seconds * v, st.2 ++ [(period_name, v)])
  else st

/-- The day/hour/minute components split off greedily by
`Timer.format_elapsed_time`, with the leftover seconds always appended last. -/
def elapsedComponents (seconds : ℚ) : List (Char × ℚ) :=
  let st := elapsedStep 60 'm' (elapsedStep (60 * 60) 'h'
    (elapsedStep (60 * 60 * 24) 'd' (seconds, [])))
  st.2 ++ [('s', st.1)]

/-- Embeds `Timer.format_elapsed_time` in the colorama-absent fallback (the
`time_color` prefix is the empty string): the space-joined formatted
components. -/
def format_elapsed_time (fmt : String) (seconds : ℚ) : List Char :=
  List.intercalate [' '] ((elapsedComponents seconds).map (fun pv => format_time fmt pv.2 pv.1))

/-- State of one Timer instance: the fields of `Timer.__init__` the printed
behavior depends on.  `display_name = none` models Python `None` (show
nothing); the empty string means "derive from the wrapped callable's name",
recorded in `wrappedName` when a callable was wrapped. -/
structure TimerState where
  display_name : Option (List Char)
  wrappedName : Option (List Char)
  datetime_format : Option String
  elapsed_time_format : String
  start_time : Option ℚ
  elapsed_time : Option ℚ
deriving DecidableEq, Repr

/-- A Timer as `Timer.__init__` leaves it for plain context-manager use:
no wrapped callable, empty display name, default formats. -/
def timerInit : TimerState :=
  { display_name := some []
    wrappedName := none
    datetime_format := some "%Y-%m-%d %Hh%Mm%Ss"
    elapsed_time_format := "short"
    start_time := none
    elapsed_time := none }

/-- Embeds the `Timer.func_name` property (colours empty): an explicit
nonempty display name wins, an empty display name falls back to the wrapped
callable's name, otherwise the clause is omitted. -/
def TimerState.func_name (t : TimerState) : List Char :=
  match t.display_name with
  | some nm =>
    if nm ≠ [] then "of '".data ++ nm ++ "' ".data
    else
      match t.wrappedName with
      | some fn => "of '".data ++ fn ++ "' ".data
      | none => []
  | none => []

/-- Embeds the `Timer.datetime` property (colours empty): `on <timestamp>`
unless datetime formatting is disabled.  The `strftime` rendering of the
current wall-clock time is passed in as `nowStr`. -/
def TimerState.datetimeClause (t : TimerState) (nowStr : List Char) : List Char :=
  match t.datetime_format with
  | none => []
  | some _ => "on ".data ++ nowStr

/-- The line printed by `Timer._start_timer` (colours empty). -/
def started_msg (t : TimerState) (nowStr : List Char) : List Char :=
  "Execution ".data ++ t.func_name ++ "started ".data ++ t.datetimeClause nowStr ++ ".\n".data

/-- The line printed by `Timer._exception_exit_end_timer` (colours empty);
`elapsed_time` has been recorded by `__exit__` before this runs. -/
def terminated_msg (t : TimerState) (nowStr : List Char) : List Char :=
  "\nExecution terminated after ".data ++
    format_elapsed_time t.elapsed_time_format (t.elapsed_time.getD 0) ++
    " ".data ++ t.datetimeClause nowStr ++ ".\n".data

/-- The line printed by `Timer._normal_exit_end_timer` (colours empty). -/
def completed_msg (t : TimerState) (nowStr : List Char) : List Char :=
  "\nExecution ".data ++ t.func_name ++ "completed in ".data ++
    format_elapsed_time t.elapsed_time_format (t.elapsed_time.getD 0) ++
    " ".data ++ t.datetimeClause nowStr ++ ".\n".data

/-- Embeds `Timer.__enter__` / `Timer._start_timer`: record the start
timestamp and print the started line. -/
def timer_enter (now : ℚ) (nowStr : List Char) (t : TimerState) :
    TimerState × List Char :=
  let t1 := { t with start_time := some now }
  (t1, started_msg t1 nowStr)

/-- Embeds `Timer.__exit__`: record `elapsed_time`, print the terminated line
when an exception is active and the completed line otherwise, and return the
suppression flag — `__exit__` returns `None`, i.e. `false`, so Python
re-raises the active exception unchanged. -/
def timer_exit (now : ℚ) (nowStr : List Char) (exc : Option (String × String))
    (t : TimerState) : TimerState × List Char × Bool :=
  let t1 := { t with elapsed_time := some (now - t.start_time.getD 0) }
  if exc.isSome then (t1, terminated_msg t1 nowStr, false)
  else (t1, completed_msg t1 nowStr, false)

/-- Python `with`-statement semantics around one Timer activation: run
`__enter__`, let the block finish with `outcome` (`none` for normal
completion, `some (type, message)` for a raised exception), run `__exit__`,
and propagate the exception exactly when the suppression flag is false.
Returns the final state, everything printed, and the propagated exception. -/
def run_with (t : TimerState) (now0 now1 : ℚ) (str0 str1 : List Char)
    (outcome : Option (String × String)) :
    TimerState × List Char × Option (String × String) :=
  let e := timer_enter now0 str0 t
  let x := timer_exit now1 str1 outcome e.1
  (x.1, e.2 ++ x.2.1, if x.2.2 then none else outcome)

/-- Names bound in the class body of `Timer` in `graal_utils/timer.py`
(its methods and properties), in source order. -/
def timerClassMembers : List String :=
  ["__init__", "__enter__", "__exit__", "func_name", "datetime",
   "format_long_time", "format_short_time", "format_elapsed_time",
   "_start_timer", "_exception_exit_end_timer", "_normal_exit_end_timer",
   "wrap_function", "__call__", "__get__"]

/-!  Method binding (`Timer.__get__` / `Timer.__call__`).  The closures the
source builds are captured by `MethodVal`: `orig` is the wrapped function and
`boundLambda parent` is `lambda *args, **kwargs:
self.__wrapped_method(parent, *args, **kwargs)` — a closure that reads the
instance attribute `__wrapped_method` at call time.  Instances (`self`
parents) are identified by naturals; applying `orig` returns the positional
argument list it receives, which records what the original function is
finally called with. -/

inductive MethodVal where
  | orig
  | boundLambda (parent : Nat)
deriving DecidableEq, Repr

/-- The two attributes `Timer.__get__` manipulates: `_wrapped_func` and the
name-mangled `_Timer__wrapped_method` (absent before the first access). -/
structure BindState where
  wrapped_func : MethodVal
  wrapped_method : Option MethodVal
deriving DecidableEq, Repr

/-- A freshly decorated method: `_wrapped_func` is the original function and
`__wrapped_method` is not yet set. -/
def bindInit : BindState := { wrapped_func := .orig, wrapped_method := none }

/-- Embeds `Timer.__get__`: copy `_wrapped_func` into `__wrapped_method`,
then replace `_wrapped_func` by the lambda that prepends the accessing
instance. -/
def timer_get (parent : Nat) (s : BindState) : BindState :=
  { wrapped_method := some s.wrapped_func
    wrapped_func := .boundLambda parent }

/-- Evaluates applying a `MethodVal` to an argument list in state `s`,
fuelled: `boundLambda parent` dereferences `s.wrapped_method` (as the
closure does at call time) and applies it to the arguments with `parent`
prepended; `orig` returns the arguments it was called with.  `none` means
the call did not finish within the fuel (or hit an unset attribute). -/
def callMethodVal (s : BindState) : MethodVal → List Nat → Nat → Option (List Nat)
  | _, _, 0 => none
  | .orig, args, _ + 1 => some args
  | .boundLambda p, args, fuel + 1 =>
    match s.wrapped_method with
    | none => none
    | some g => callMethodVal s g (p :: args) fuel

/-- Embeds invoking the Timer through `Timer.__call__` with a wrapped
function present: the call runs `_wrapped_func` on the arguments. -/
def timer_invoke (s : BindState) (args : List Nat) (fuel : Nat) : Option (List Nat) :=
  callMethodVal s s.wrapped_func args fuel

/-!  Helper lemmas. -/

theorem mapExcept_ok_id (l : List (String × PyVal)) :
    mapExcept (fun kv => (Except.ok kv : Except String (String × PyVal))) l = Except.ok l := by
  induction l with
  | nil => rfl
  | cons h t ih => simp [mapExcept, ih]

theorem splitOnChar_ne_nil (sep : Char) (l : List Char) : splitOnChar sep l ≠ [] := by
  cases l with
  | nil => simp [splitOnChar]
  | cons c rest =>
    rw [splitOnChar]
    by_cases hc : c = sep
    · simp [hc]
    · rw [if_neg hc]
      cases splitOnChar sep rest <;> simp

theorem mem_splitOnChar_mem (sep : Char) (c : Char) (l piece : List Char)
    (hp : piece ∈ splitOnChar sep l) (hc : c ∈ piece) : c ∈ l := by
  induction l generalizing piece with
  | nil =>
    simp [splitOnChar] at hp
    subst hp
    simp at hc
  | cons d rest ih =>
    rw [splitOnChar] at hp
    by_cases hd : d = sep
    · rw [if_pos hd] at hp
      rcases List.mem_cons.mp hp with h | h
      · subst h; simp at hc
      · exact List.mem_cons_of_mem _ (ih piece h hc)
    · rw [if_neg hd] at hp
      cases hr : splitOnChar sep rest with
      | nil => exact absurd hr (splitOnChar_ne_nil sep rest)
      | cons p ps =>
        rw [hr] at hp
        rcases List.mem_cons.mp hp with h | h
        · subst h
          rcases List.mem_cons.mp hc with h' | h'
          · subst h'; exact List.mem_cons_self _ _
          · have hpmem : p ∈ splitOnChar sep rest := by
              rw [hr]; exact List.mem_cons_self _ _
            exact List.mem_cons_of_mem _ (ih p hpmem h')
        · have hmem : piece ∈ splitOnChar sep rest := by
            rw [hr]; exact List.mem_cons_of_mem _ h
          exact List.mem_cons_of_mem _ (ih piece hmem hc)

/-!  Claim theorems. -/

/-- Claim C4: for every function whose parameters all have primitive
defaults, the `func_to_cmd`-generated entry point called with no process
arguments and no in-code keyword overrides returns the same result as
calling the original function directly on its declared defaults. -/
theorem generated_entry_defaults {R : Type} (func : List (String × PyVal) → R)
    (sig : List (String × PyVal)) :
    func_to_cmd func sig [] [] = Except.ok (callWithDefaults func sig) := by
  unfold func_to_cmd func_to_cmd_kwargs callWithDefaults
  simp [dictUpdate, lookupFlag, mapExcept_ok_id, Except.map]

/-- Claim C1 counterexample: with default `k=0`, an explicit caller kwarg
`k=5` and the command line supplying `--k=7`, the generated entry point
invokes the function with `k=7` — the command-line flag, not the caller's
in-code value, wins. -/
theorem cmdline_overrides_kwargs_cex :
    func_to_cmd_kwargs [("k", PyVal.prim (Prim.int 0))] [("k", PyVal.prim (Prim.int 5))]
        [("k", "7".data)] = Except.ok [("k", PyVal.prim (Prim.int 7))] ∧
    (Except.ok [("k", PyVal.prim (Prim.int 7))] : Except String (List (String × PyVal))) ≠
      Except.ok [("k", PyVal.prim (Prim.int 5))] := by
  constructor
  · decide
  · decide

/-- Claim C1 (amended): for a parameter `k` with an explicit caller kwarg,
the generated entry point invokes the function with the coerced
command-line value when `--k` is supplied, and with the caller's in-code
value only when `--k` is absent. -/
theorem cmdline_flag_precedence (k : String) (dflt kwv pv : PyVal) (s : List Char)
    (h : value_type kwv s = Except.ok pv) :
    func_to_cmd_kwargs [(k, dflt)] [(k, kwv)] [(k, s)] = Except.ok [(k, pv)] ∧
    func_to_cmd_kwargs [(k, dflt)] [(k, kwv)] [] = Except.ok [(k, kwv)] := by
  constructor <;>
    simp [func_to_cmd_kwargs, dictUpdate, lookupFlag, h, mapExcept, Except.map]

/-- Witness for `cmdline_flag_precedence` at `k=0` default, caller kwarg
`k=5`, flag string `7`. -/
theorem cmdline_flag_precedence_witness :
    func_to_cmd_kwargs [("k", PyVal.prim (Prim.int 0))] [("k", PyVal.prim (Prim.int 5))]
        [("k", "7".data)] = Except.ok [("k", PyVal.prim (Prim.int 7))] ∧
    func_to_cmd_kwargs [("k", PyVal.prim (Prim.int 0))] [("k", PyVal.prim (Prim.int 5))]
        [] = Except.ok [("k", PyVal.prim (Prim.int 5))] :=
  cmdline_flag_precedence "k" (PyVal.prim (Prim.int 0)) (PyVal.prim (Prim.int 5))
    (PyVal.prim (Prim.int 7)) "7".data (by decide)

/-- Claim C7: `bool_parse` returns true exactly on the lowercased truthy
tokens, false exactly on the lowercased falsy tokens, and raises a
user-facing argument error exactly on every other input. -/
theorem bool_parse_classification (s : List Char) :
    (bool_parse s = Except.ok true ↔ toLowerStr s ∈ truthyTokens) ∧
    (bool_parse s = Except.ok false ↔ toLowerStr s ∈ falsyTokens) ∧
    ((∃ m, bool_parse s = Except.error m) ↔
      toLowerStr s ∉ truthyTokens ∧ toLowerStr s ∉ falsyTokens) := by
  by_cases h1 : toLowerStr s ∈ truthyTokens
  · have h2 : toLowerStr s ∉ falsyTokens := by
      intro h2
      simp only [truthyTokens, List.map_cons, List.map_nil, List.mem_cons,
        List.not_mem_nil, or_false] at h1
      rcases h1 with h | h | h | h | h <;> rw [h] at h2 <;> exact absurd h2 (by decide)
    simp [bool_parse, h1, h2]
  · by_cases h2 : toLowerStr s ∈ falsyTokens
    · simp [bool_parse, h1, h2]
    · simp [bool_parse, h1, h2]

/-- Claim C8: bracket characters around a list flag are optional, an
integer-default list coerces `[1,2,3]` to the ordered integers `[1, 2, 3]`,
and an empty default list coerces elements as strings. -/
theorem list_flag_parsing :
    (∀ (t : List Char → Except String Prim) (s : List Char),
        list_parse t ('[' :: (s ++ [']'])) = list_parse t s) ∧
    value_type (PyVal.list [Prim.int 9, Prim.int 9]) "[1,2,3]".data =
      Except.ok (PyVal.list [Prim.int 1, Prim.int 2, Prim.int 3]) ∧
    value_type (PyVal.list []) "a,b".data =
      Except.ok (PyVal.list [Prim.str "a".data, Prim.str "b".data]) := by
  refine ⟨fun t s => ?_, by decide, by decide⟩
  have hrb : removeBrackets ('[' :: (s ++ [']'])) = removeBrackets s := by
    simp [removeBrackets, List.filter_append]
  rw [list_parse, list_parse, hrb]

/-- Claim C10: `list_parse` removes every bracket character anywhere in the
input, so no bracket ever reaches the element coercer, and two inputs that
agree after bracket removal parse identically. -/
theorem list_parse_bracket_insensitive :
    (∀ s : List Char, '[' ∉ removeBrackets s ∧ ']' ∉ removeBrackets s) ∧
    (∀ (s piece : List Char), piece ∈ splitOnChar ',' (removeBrackets s) →
        '[' ∉ piece ∧ ']' ∉ piece) ∧
    (∀ (t : List Char → Except String Prim) (s1 s2 : List Char),
        removeBrackets s1 = removeBrackets s2 → list_parse t s1 = list_parse t s2) := by
  have hrb : ∀ s : List Char, '[' ∉ removeBrackets s ∧ ']' ∉ removeBrackets s := by
    intro s
    constructor <;> · intro h; simp [removeBrackets, List.mem_filter] at h
  refine ⟨hrb, fun s piece hp => ?_, fun t s1 s2 h => ?_⟩
  · constructor
    · intro hc
      exact (hrb s).1 (mem_splitOnChar_mem ',' '[' (removeBrackets s) piece hp hc)
    · intro hc
      exact (hrb s).2 (mem_splitOnChar_mem ',' ']' (removeBrackets s) piece hp hc)
  · rw [list_parse, list_parse, h]

/-- Witness for `list_parse_bracket_insensitive`: the inputs `1,[2],3` and
`[1,2,3]` differ only in bracket placement and parse to the same list. -/
theorem list_parse_bracket_insensitive_witness :
    list_parse (elemCoercerFor (Prim.int 0)) "1,[2],3".data =
      list_parse (elemCoercerFor (Prim.int 0)) "[1,2,3]".data :=
  list_parse_bracket_insensitive.2.2 (elemCoercerFor (Prim.int 0))
    "1,[2],3".data "[1,2,3]".data (by decide)

/-!  Decomposition bookkeeping for `format_elapsed_time`. -/

/-- Seconds spanned by one unit of each period. -/
def unitSeconds (period : Char) : ℚ :=
  if period = 'd' then 60 * 60 * 24
  else if period = 'h' then 60 * 60
  else if period = 'm' then 60
  else 1

/-- Total seconds represented by a component list. -/
def wsum (l : List (Char × ℚ)) : ℚ :=
  (l.map (fun pv => unitSeconds pv.1 * pv.2)).sum

theorem wsum_append (a b : List (Char × ℚ)) : wsum (a ++ b) = wsum a + wsum b := by
  simp [wsum]

theorem elapsedStep_invariant (p : ℚ) (nm : Char) (hp : unitSeconds nm = p)
    (st : ℚ × List (Char × ℚ)) :
    (elapsedStep p nm st).1 + wsum (elapsedStep p nm st).2 = st.1 + wsum st.2 := by
  rw [elapsedStep]
  split
  · rw [wsum_append]
    simp [wsum, hp]
  · rfl

theorem elapsedStep_snd_cases (p : ℚ) (nm : Char) (st : ℚ × List (Char × ℚ))
    (x : Char × ℚ) (hx : x ∈ (elapsedStep p nm st).2) : x ∈ st.2 ∨ x.1 = nm := by
  rw [elapsedStep] at hx
  split at hx
  · rcases List.mem_append.mp hx with h | h
    · exact Or.inl h
    · right
      rw [List.mem_singleton.mp h]
  · exact Or.inl hx

theorem mem_elapsedStep_of_ne (p : ℚ) (nm c : Char) (v : ℚ)
    (st : ℚ × List (Char × ℚ)) (hne : c ≠ nm) :
    (c, v) ∈ (elapsedStep p nm st).2 ↔ (c, v) ∈ st.2 := by
  rw [elapsedStep]
  split
  · rw [List.mem_append]
    constructor
    · rintro (h | h)
      · exact h
      · exact absurd (congrArg Prod.fst (List.mem_singleton.mp h)) hne
    · exact Or.inl
  · exact Iff.rfl

theorem mem_elapsedStep_self (p : ℚ) (nm : Char) (st : ℚ × List (Char × ℚ))
    (habs : ∀ v, (nm, v) ∉ st.2) :
    (∃ v, (nm, v) ∈ (elapsedStep p nm st).2) ↔ st.1 ≥ p := by
  rw [elapsedStep]
  split
  · rename_i hge
    simp only [List.mem_append, List.mem_singleton]
    constructor
    · intro _
      exact hge
    · intro _
      exact ⟨(⌊st.1 / p⌋ : Int), Or.inr rfl⟩
  · rename_i hlt
    constructor
    · rintro ⟨v, hv⟩
      exact absurd hv (habs v)
    · intro hge
      exact absurd hge hlt

theorem comp_sixty_five : elapsedComponents 65 = [('m', 1), ('s', 5)] := by
  norm_num [elapsedComponents, elapsedStep]

theorem comp_threeh : elapsedComponents 3661 = [('h', 1), ('m', 1), ('s', 1)] := by
  norm_num [elapsedComponents, elapsedStep]

/-- Claim C5: `format_elapsed_time` decomposes a nonnegative duration
greedily and exactly into day/hour/minute/second components — the components
recompose to the duration, the seconds component is always present and last,
each larger unit appears exactly when the duration remaining at its stage
reaches its span — and 65 seconds renders short as `1m 5.00s` while 3661
seconds renders long as `1 hour 1 minute 1.00 second`. -/
theorem format_elapsed_greedy (d : ℚ) (_hd : 0 ≤ d) :
    wsum (elapsedComponents d) = d ∧
    ((elapsedComponents d).map Prod.fst).getLast? = some 's' ∧
    ((∃ v, ('d', v) ∈ elapsedComponents d) ↔ d ≥ 60 * 60 * 24) ∧
    ((∃ v, ('h', v) ∈ elapsedComponents d) ↔
      (elapsedStep (60 * 60 * 24) 'd' (d, [])).1 ≥ 60 * 60) ∧
    ((∃ v, ('m', v) ∈ elapsedComponents d) ↔
      (elapsedStep (60 * 60) 'h' (elapsedStep (60 * 60 * 24) 'd' (d, []))).1 ≥ 60) ∧
    format_elapsed_time "short" 65 = "1m 5.00s".data ∧
    format_elapsed_time "long" 3661 = "1 hour 1 minute 1.00 second".data := by
  have hda : (elapsedStep (60 * 60 * 24) 'd' (d, [])).2 = [] ∨
      ∃ v, (elapsedStep (60 * 60 * 24) 'd' (d, [])).2 = [('d', v)] := by
    rw [elapsedStep]
    split
    · exact Or.inr ⟨_, rfl⟩
    · exact Or.inl rfl
  refine ⟨?_, ?_, ?_, ?_, ?_, ?_, ?_⟩
  · rw [elapsedComponents, wsum_append]
    have h1 := elapsedStep_invariant (60 * 60 * 24) 'd' rfl (d, [])
    have h2 := elapsedStep_invariant (60 * 60) 'h' rfl
      (elapsedStep (60 * 60 * 24) 'd' (d, []))
    have h3 := elapsedStep_invariant 60 'm' rfl
      (elapsedStep (60 * 60) 'h' (elapsedStep (60 * 60 * 24) 'd' (d, [])))
    have hs : wsum [('s',
        (elapsedStep 60 'm' (elapsedStep (60 * 60) 'h'
          (elapsedStep (60 * 60 * 24) 'd' (d, [])))).1)] =
        (elapsedStep 60 'm' (elapsedStep (60 * 60) 'h'
          (elapsedStep (60 * 60 * 24) 'd' (d, [])))).1 := by
      simp [wsum, unitSeconds]
    rw [hs]
    have hnil : wsum ((d, ([] : List (Char × ℚ))).2) = 0 := by simp [wsum]
    linarith [h1, h2, h3]
  · rw [elapsedComponents, List.map_append]
    simp
  · rw [elapsedComponents]
    constructor
    · rintro ⟨v, hv⟩
      rcases List.mem_append.mp hv with h | h
      · have h1 := (mem_elapsedStep_of_ne 60 'm' 'd' v _ (by decide)).mp h
        have h2 := (mem_elapsedStep_of_ne (60 * 60) 'h' 'd' v _ (by decide)).mp h1
        have h3 : (∃ w, ('d', w) ∈ (elapsedStep (60 * 60 * 24) 'd' (d, [])).2) := ⟨v, h2⟩
        have := (mem_elapsedStep_self (60 * 60 * 24) 'd' (d, []) (by simp)).mp h3
        exact this
      · simp at h
    · intro hge
      obtain ⟨v, hv⟩ := (mem_elapsedStep_self (60 * 60 * 24) 'd' (d, []) (by simp)).mpr hge
      refine ⟨v, List.mem_append.mpr (Or.inl ?_)⟩
      exact (mem_elapsedStep_of_ne 60 'm' 'd' v _ (by decide)).mpr
        ((mem_elapsedStep_of_ne (60 * 60) 'h' 'd' v _ (by decide)).mpr hv)
  · rw [elapsedComponents]
    have habs : ∀ v, ('h', v) ∉ (elapsedStep (60 * 60 * 24) 'd' (d, [])).2 := by
      intro v hv
      rcases hda with h | ⟨w, h⟩ <;> rw [h] at hv <;> simp at hv
    constructor
    · rintro ⟨v, hv⟩
      rcases List.mem_append.mp hv with h | h
      · have h1 := (mem_elapsedStep_of_ne 60 'm' 'h' v _ (by decide)).mp h
        exact (mem_elapsedStep_self (60 * 60) 'h' _ habs).mp ⟨v, h1⟩
      · simp at h
    · intro hge
      obtain ⟨v, hv⟩ := (mem_elapsedStep_self (60 * 60) 'h' _ habs).mpr hge
      exact ⟨v, List.mem_append.mpr (Or.inl
        ((mem_elapsedStep_of_ne 60 'm' 'h' v _ (by decide)).mpr hv))⟩
  · rw [elapsedComponents]
    have habs : ∀ v, ('m', v) ∉
        (elapsedStep (60 * 60) 'h' (elapsedStep (60 * 60 * 24) 'd' (d, []))).2 := by
      intro v hv
      rcases elapsedStep_snd_cases _ _ _ _ hv with h | h
      · rcases hda with h' | ⟨w, h'⟩ <;> rw [h'] at h <;> simp at h
      · simp at h
    constructor
    · rintro ⟨v, hv⟩
      rcases List.mem_append.mp hv with h | h
      · exact (mem_elapsedStep_self 60 'm' _ habs).mp ⟨v, h⟩
      · simp at h
    · intro hge
      obtain ⟨v, hv⟩ := (mem_elapsedStep_self 60 'm' _ habs).mpr hge
      exact ⟨v, List.mem_append.mpr (Or.inl hv)⟩
  · rw [format_elapsed_time, comp_sixty_five]
    have h1 : format_time "short" 1 'm' = "1m".data := by
      rw [format_time]
      norm_num [format_short_time, truncInt]
      decide
    have h2 : format_time "short" 5 's' = "5.00s".data := by
      rw [format_time]
      norm_num [format_short_time, twoDecChars, roundHalfEven, Int.fract]
      decide
    rw [List.map_cons, List.map_cons, List.map_nil, h1, h2]
    decide
  · rw [format_elapsed_time, comp_threeh]
    have h1 : format_time "long" 1 'h' = "1 hour".data := by
      rw [format_time]
      norm_num [format_long_time, truncInt, periodName]
      decide
    have h2 : format_time "long" 1 'm' = "1 minute".data := by
      rw [format_time]
      norm_num [format_long_time, truncInt, periodName]
      decide
    have h3 : format_time "long" 1 's' = "1.00 second".data := by
      rw [format_time]
      norm_num [format_long_time, twoDecChars, roundHalfEven, Int.fract, periodName]
      decide
    rw [List.map_cons, List.map_cons, List.map_cons, List.map_nil, h1, h2, h3]
    decide

/-- Witness for `format_elapsed_greedy` at `d = 65`. -/
theorem format_elapsed_greedy_witness :
    wsum (elapsedComponents 65) = 65 ∧
    ((elapsedComponents 65).map Prod.fst).getLast? = some 's' ∧
    ((∃ v, ('d', v) ∈ elapsedComponents 65) ↔ (65 : ℚ) ≥ 60 * 60 * 24) ∧
    ((∃ v, ('h', v) ∈ elapsedComponents 65) ↔
      (elapsedStep (60 * 60 * 24) 'd' ((65 : ℚ), [])).1 ≥ 60 * 60) ∧
    ((∃ v, ('m', v) ∈ elapsedComponents 65) ↔
      (elapsedStep (60 * 60) 'h' (elapsedStep (60 * 60 * 24) 'd' ((65 : ℚ), []))).1 ≥ 60) ∧
    format_elapsed_time "short" 65 = "1m 5.00s".data ∧
    format_elapsed_time "long" 3661 = "1 hour 1 minute 1.00 second".data :=
  format_elapsed_greedy 65 (by norm_num)

/-- Claim C6 counterexample: a magnitude of 0.50 — different from 1 — still
renders without the trailing `s`: the long second format of one half is
`0.50 second`, not `0.50 seconds`. -/
theorem long_format_pluralization_cex :
    format_long_time (1 / 2) 's' = "0.50 second".data ∧
    format_long_time (1 / 2) 's' ≠ "0.50 seconds".data := by
  have h : format_long_time (1 / 2) 's' = "0.50 second".data := by
    rw [format_long_time]
    norm_num [twoDecChars, roundHalfEven, Int.fract, periodName]
    decide
  refine ⟨h, ?_⟩
  rw [h]
  decide

/-- Claim C6 (amended): in the long elapsed-time format, the unit word ends
in `s` exactly when the magnitude exceeds 1; for magnitudes of 1 or below
(including fractional ones) the singular word is used. -/
theorem long_format_pluralization (q : ℚ) (p : Char) (hp : p ∈ ['d', 'h', 'm', 's']) :
    ((format_long_time q p).getLast? = some 's') ↔ 1 < q := by
  fin_cases hp <;>
    by_cases hq : 1 < q <;>
      simp [format_long_time, periodName, hq, List.getLast?_append]

/-- Witness for `long_format_pluralization` at magnitude 2, period `m`. -/
theorem long_format_pluralization_witness :
    'm' ∈ ['d', 'h', 'm', 's'] ∧
    (((format_long_time 2 'm').getLast? = some 's') ↔ 1 < (2 : ℚ)) :=
  ⟨by decide, long_format_pluralization 2 'm' (by decide)⟩

/-- Claim C9: for every activation outcome, one Timer activation records
`elapsed_time`, the active exception (when any) propagates unchanged in type
and message — never suppressed, wrapped or altered — and exactly one of the
two terminal status lines is printed: the terminated line on an exception,
the completed line on normal completion. -/
theorem timer_exception_propagation (t : TimerState) (now0 now1 : ℚ)
    (s0 s1 : List Char) (outcome : Option (String × String)) :
    (run_with t now0 now1 s0 s1 outcome).1.elapsed_time = some (now1 - now0) ∧
    (run_with t now0 now1 s0 s1 outcome).2.2 = outcome ∧
    (∀ e, outcome = some e →
      (run_with t now0 now1 s0 s1 outcome).2.1 =
        started_msg { t with start_time := some now0 } s0 ++
          terminated_msg { t with
            start_time := some now0
            elapsed_time := some (now1 - now0) } s1) ∧
    (outcome = none →
      (run_with t now0 now1 s0 s1 outcome).2.1 =
        started_msg { t with start_time := some now0 } s0 ++
          completed_msg { t with
            start_time := some now0
            elapsed_time := some (now1 - now0) } s1) := by
  cases outcome <;> simp [run_with, timer_enter, timer_exit]

/-- Witness for `timer_exception_propagation`: a RuntimeError raised inside
a fresh Timer activation propagates unchanged and the terminated line is
printed. -/
theorem timer_exception_propagation_witness :
    (run_with timerInit 0 1 [] [] (some ("RuntimeError", "boom"))).2.2 =
      some ("RuntimeError", "boom") ∧
    (run_with timerInit 0 1 [] [] (some ("RuntimeError", "boom"))).2.1 =
      started_msg { timerInit with start_time := some 0 } [] ++
        terminated_msg { timerInit with
          start_time := some 0
          elapsed_time := some (1 - 0) } [] :=
  ⟨(timer_exception_propagation timerInit 0 1 [] [] (some ("RuntimeError", "boom"))).2.1,
   (timer_exception_propagation timerInit 0 1 [] []
       (some ("RuntimeError", "boom"))).2.2.1 ("RuntimeError", "boom") rfl⟩

/-- Claim C2: the `Timer` class defines no `__iter__`, `__next__` or
`__getitem__`, so under Python semantics a Timer wrapping an iterable cannot
be iterated — only the context-manager (`__enter__`/`__exit__`) and
decorated-callable (`__call__`) usage shapes exist. -/
theorem timer_no_iteration_support :
    "__iter__" ∉ timerClassMembers ∧ "__next__" ∉ timerClassMembers ∧
    "__getitem__" ∉ timerClassMembers ∧
    "__enter__" ∈ timerClassMembers ∧ "__exit__" ∈ timerClassMembers ∧
    "__call__" ∈ timerClassMembers := by decide

theorem callMethodVal_bound_none (s : BindState) (r : Nat)
    (hs : s.wrapped_method = some (MethodVal.boundLambda r)) :
    ∀ (fuel : Nat) (args : List Nat) (p : Nat),
      callMethodVal s (MethodVal.boundLambda p) args fuel = none := by
  intro fuel
  induction fuel with
  | zero => intro args p; rfl
  | succ n ih =>
    intro args p
    have hstep : callMethodVal s (MethodVal.boundLambda p) args (n + 1) =
        callMethodVal s (MethodVal.boundLambda r) (p :: args) n := by
      simp [callMethodVal, hs]
    rw [hstep]
    exact ih (p :: args) r

/-- Claim C3: after the first access through an instance, invoking the
wrapped method calls the original exactly once with that instance bound as
`self` (its id is prepended to the arguments); but after a second access —
a repeated call on the same or another instance — the rebuilt closure calls
`__wrapped_method`, which now holds the previous closure itself, so the
invocation recurses forever and the original function is never reached. -/
theorem method_rebinding_diverges (p1 p2 : Nat) (args : List Nat) :
    (∀ fuel : Nat, timer_invoke (timer_get p1 bindInit) args (fuel + 2) =
      some (p1 :: args)) ∧
    (∀ fuel : Nat, timer_invoke (timer_get p2 (timer_get p1 bindInit)) args fuel =
      none) := by
  constructor
  · intro fuel
    rfl
  · intro fuel
    exact callMethodVal_bound_none (timer_get p2 (timer_get p1 bindInit)) p1 rfl
      fuel args p2
